import Mathlib

/-!
Shallow embedding of the faimed3d model-construction code
(notebooks `06c_model.efficientnet` and `06e_models.deeplabv3`).

Tensors are modelled at two levels:

* shape level: a tensor shape is a `List ℕ` (`[batch, channels, depth,
  height, width]` for the 5-dimensional volumetric tensors this repo
  builds).  Every layer becomes a function `List ℕ → Option (List ℕ)`
  computing the output shape; `none` models a runtime error raised by the
  framework (rank mismatch, channel mismatch, kernel larger than the
  padded input, ...).  The arithmetic of each layer follows the PyTorch
  shape formulas for `Conv3d`, `ConstantPad3d`, `AdaptiveAvgPool3d`,
  `F.interpolate`, `torch.cat`, broadcasting, `Flatten` and `Linear`.

* value level (for `DropConnect` and `MBConvBlock.forward`): scalars are
  `ℚ` (the idealised real arithmetic of the floating-point code), and a
  batch of activations is a `List (List ℚ)` — one flattened row per batch
  element, which is enough because `DropConnect` broadcasts a single
  Bernoulli draw over all channel/spatial positions of a batch element.

Python `int(...)` truncation and Python `//` floor division are modelled
explicitly (`pyInt`, `Int.fdiv`).
-/

/-- Python `int()` conversion of a rational: truncation toward zero. -/
def pyInt (q : ℚ) : ℤ := if 0 ≤ q then ⌊q⌋ else ⌈q⌉

/-! ### Shape-level primitives (PyTorch layer shape semantics) -/

/-- Output length of one spatial axis of a convolution:
`⌊(n + padTot - (dilation*(ks-1)+1)) / stride⌋ + 1`.
Fails (as PyTorch does) when the padded input is smaller than the
effective kernel, or when the stride is zero. -/
def convOutDim (n ks stride dilation padTot : ℕ) : Option ℕ :=
  let eff := dilation * (ks - 1) + 1
  if 1 ≤ stride ∧ eff ≤ n + padTot then some ((n + padTot - eff) / stride + 1)
  else none

/-- Shape of all spatial axes of a convolution.  Each axis carries its own
`(kernel, stride, dilation, total padding)` quadruple. -/
def convDims : List ℕ → List (ℕ × ℕ × ℕ × ℕ) → Option (List ℕ)
  | [], [] => some []
  | n :: ns, p :: ps =>
      (convOutDim n p.1 p.2.1 p.2.2.1 p.2.2.2).bind fun m =>
        (convDims ns ps).bind fun ms => some (m :: ms)
  | _, _ => none

/-- Shape semantics of `nn.ConvNd` (`nn.Conv3d` when `ps` has three
entries, `nn.Conv2d` when it has two): the input must have exactly
`2 + ps.length` dimensions `[batch, channels, spatial...]`, the channel
count must equal `ni`; the output has `nf` channels.  Groups do not
affect the output shape and are omitted. -/
def convShape (ni nf : ℕ) (ps : List (ℕ × ℕ × ℕ × ℕ)) (s : List ℕ) :
    Option (List ℕ) :=
  match s with
  | b :: c :: spatial =>
      if c = ni ∧ spatial.length = ps.length then
        (convDims spatial ps).bind fun sp => some (b :: nf :: sp)
      else none
  | _ => none

/-- Shape semantics of `nn.ConstantPad3d` on a 5-dimensional input; the
six padding amounts are interpreted in PyTorch order
`(W_left, W_right, H_left, H_right, D_left, D_right)`. -/
def constantPad3dShape (p : List ℕ) (s : List ℕ) : Option (List ℕ) :=
  match p, s with
  | [wl, wr, hl, hr, dl, dr], [b, c, d, h, w] =>
      some [b, c, d + dl + dr, h + hl + hr, w + wl + wr]
  | _, _ => none

/-- Broadcasting of one dimension pair (PyTorch semantics): the two sizes
must be equal or one of them must be `1`. -/
def broadcastDim (a b : ℕ) : Option ℕ :=
  if a = b then some a else if a = 1 then some b else if b = 1 then some a
  else none

/-- Broadcasting of two reversed (innermost-first) shapes. -/
def broadcastRev : List ℕ → List ℕ → Option (List ℕ)
  | [], t => some t
  | s, [] => some s
  | a :: s, b :: t =>
      (broadcastDim a b).bind fun c =>
        (broadcastRev s t).bind fun r => some (c :: r)

/-- Shape of a broadcasted elementwise operation (`*`, `+`, ...);
dimensions are right-aligned as in PyTorch. -/
def broadcastShape (s t : List ℕ) : Option (List ℕ) :=
  (broadcastRev s.reverse t.reverse).bind fun r => some r.reverse

/-- Shape semantics of `nn.AdaptiveAvgPool3d(1)` / `F.adaptive_avg_pool3d(x, 1)`
on a 5-dimensional input: all three spatial sizes collapse to `1`
(PyTorch rejects empty spatial dimensions). -/
def adaptiveAvgPool3dShape (s : List ℕ) : Option (List ℕ) :=
  match s with
  | [b, c, d, h, w] =>
      if 1 ≤ d ∧ 1 ≤ h ∧ 1 ≤ w then some [b, c, 1, 1, 1] else none
  | _ => none

/-- Shape semantics of `F.interpolate(x, size=target)` (used with both
`mode='trilinear'` and `mode='nearest'`, whose output shapes agree) on a
5-dimensional input with a 3-element target size. -/
def interpolateShape (target : List ℕ) (s : List ℕ) : Option (List ℕ) :=
  match s, target with
  | [b, c, d, h, w], [td, th, tw] =>
      if 1 ≤ d ∧ 1 ≤ h ∧ 1 ≤ w ∧ 1 ≤ td ∧ 1 ≤ th ∧ 1 ≤ tw then
        some [b, c, td, th, tw]
      else none
  | _, _ => none

/-- Channel sum of `torch.cat(xs, dim=1)`: all inputs must share batch
size and spatial sizes. -/
def catDim1Aux (b : ℕ) (sp : List ℕ) : List (List ℕ) → Option ℕ
  | [] => some 0
  | t :: rest =>
      match t with
      | b' :: c' :: sp' =>
          if b' = b ∧ sp' = sp then
            (catDim1Aux b sp rest).bind fun m => some (c' + m)
          else none
      | _ => none

/-- Shape semantics of `torch.cat(xs, dim=1)`. -/
def catDim1 (xs : List (List ℕ)) : Option (List ℕ) :=
  match xs with
  | (b :: _ :: sp) :: _ =>
      (catDim1Aux b sp xs).bind fun tot => some (b :: tot :: sp)
  | _ => none

/-- Shape of Python `sum(tensors)` (left fold of broadcasted addition over
a non-empty list; `sum([])` would be the integer `0`, which the following
convolution rejects, hence `none`). -/
def sumShapes : List (List ℕ) → Option (List ℕ)
  | [] => none
  | [s] => some s
  | s :: rest => (sumShapes rest).bind fun t => broadcastShape s t

/-- Shape semantics of `nn.Flatten()` (default `start_dim=1`). -/
def flattenShape (s : List ℕ) : Option (List ℕ) :=
  match s with
  | [] => none
  | [_] => none
  | b :: rest => some [b, rest.prod]

/-- Shape semantics of `nn.Linear(inF, outF)`: acts on the last dimension,
which must equal `inF`. -/
def linearShape (inF outF : ℕ) (s : List ℕ) : Option (List ℕ) :=
  match s with
  | [] => none
  | _ =>
      if s.getLast? = some inF then some (s.dropLast ++ [outF]) else none

/-- Spatial-size effect of a stride-2 dynamically padded convolution:
`n ↦ (n - 1) / 2 + 1`. -/
def halveDim (n : ℕ) : ℕ := (n - 1) / 2 + 1

/-! ### `ConvLayerDynamicPadding` (notebook `06c`, EfficientNet) -/

/-- Source translation of `ConvLayerDynamicPadding.calculate_padding`:
`if ks % 2 == 0: return ks // 2, (ks-1) // 2 else: return ks // 2, ks // 2`. -/
def calculate_padding (ks : ℕ) : ℕ × ℕ :=
  if ks % 2 = 0 then (ks / 2, (ks - 1) / 2) else (ks / 2, ks / 2)

/-- The padding list built in `ConvLayerDynamicPadding.__init__`:
`[pad for _ks in ks for pad in self.calculate_padding(_ks)]` for a
3-tuple kernel `(ksD, ksH, ksW)`. -/
def paddingList (ksD ksH ksW : ℕ) : List ℕ :=
  [(calculate_padding ksD).1, (calculate_padding ksD).2,
   (calculate_padding ksH).1, (calculate_padding ksH).2,
   (calculate_padding ksW).1, (calculate_padding ksW).2]

/-- Shape semantics of `ConvLayerDynamicPadding`: an
`nn.ConstantPad3d(padding[::-1], 0.)` (note the reversal in the source)
followed by the convolution with padding `0` (batch-norm and activation
layers do not change shapes and are omitted). -/
def dynPadConvShape (ni nf : ℕ) (ks stride : ℕ × ℕ × ℕ) (s : List ℕ) :
    Option (List ℕ) :=
  (constantPad3dShape (paddingList ks.1 ks.2.1 ks.2.2).reverse s).bind
    (convShape ni nf
      [(ks.1, stride.1, 1, 0), (ks.2.1, stride.2.1, 1, 0),
       (ks.2.2, stride.2.2, 1, 0)])

/-! ### `DropConnect` (notebook `06c`) -/

/-- Source translation of `DropConnect.__init__`: the constructor asserts
`0 <= p <= 1` (raising `AssertionError` otherwise) and stores
`keep_prob = 1 - p`.  `none` models the raised assertion. -/
def DropConnect.init (p : ℚ) : Option ℚ :=
  if 0 ≤ p ∧ p ≤ 1 then some (1 - p) else none

/-- One entry of the binary mask: `(keep_prob + rand()).floor()`, with the
uniform draw `u ∈ [0,1)` of the batch element. -/
def dropConnectMask (keep_prob u : ℚ) : ℚ := (⌊keep_prob + u⌋ : ℤ)

/-- Row-by-row application of `x / keep_prob * random_tensor.floor_()`:
the mask has shape `(N,1,1,1,1)`, i.e. one draw `u b` per batch element
`b`, broadcast over the whole row. -/
def dropConnectRows (keep_prob : ℚ) (u : ℕ → ℚ) : ℕ → List (List ℚ) → List (List ℚ)
  | _, [] => []
  | b, row :: rest =>
      row.map (fun v => v / keep_prob * dropConnectMask keep_prob (u b)) ::
        dropConnectRows keep_prob u (b + 1) rest

/-- Source translation of `DropConnect.forward`: the identity when not in
training mode, otherwise the per-batch Bernoulli scaling. -/
def DropConnect.forward (keep_prob : ℚ) (training : Bool) (u : ℕ → ℚ)
    (x : List (List ℚ)) : List (List ℚ) :=
  if training = false then x else dropConnectRows keep_prob u 0 x

/-! ### `MBConvBlock` (notebook `06c`), value level -/

/-- Squeeze-and-excitation activity test from `MBConvBlock.__init__`:
`(se_ratio is not None) and (0 < se_ratio <= 1)`. -/
def mbHasSe (r? : Option ℚ) : Bool :=
  match r? with
  | none => false
  | some r => decide (0 < r) && decide (r ≤ 1)

/-- Squeezed channel count from `MBConvBlock.__init__`:
`max(1, int(n_inp * se_ratio))`. -/
def numSqueezedChannels (n_inp : ℕ) (r : ℚ) : ℕ :=
  max 1 (pyInt ((n_inp : ℚ) * r)).toNat

/-- Value-level model of an `MBConvBlock`.  The sub-layers built in
`__init__` (`expand_conv`, `depthwise_conv`, `squeeze_expand`,
`project_conv`, `drop_conncet` — the source's spelling) and the framework
primitives used by `forward` (`F.adaptive_avg_pool3d(·, 1)`, `sigmoid`,
elementwise `*` and `+`) are opaque functions over an arbitrary tensor
type `T`; the block's configuration scalars are carried alongside. -/
structure MBConvBlock (T : Type) where
  n_inp : ℕ
  n_out : ℕ
  kernel_size : ℕ
  stride : ℕ
  se_ratio : Option ℚ
  id_skip : Bool
  expand_ratio : ℕ
  expand_conv : T → T
  depthwise_conv : T → T
  squeeze_expand : T → T
  project_conv : T → T
  drop_conncet : T → T
  avg_pool : T → T
  sigmoid : T → T
  mul : T → T → T
  add : T → T → T

/-- Computed attribute `self.has_se` of the block. -/
def MBConvBlock.has_se {T : Type} (m : MBConvBlock T) : Bool :=
  mbHasSe m.se_ratio

/-- Source translation of `MBConvBlock.forward`, following the Python
control flow statement by statement. -/
def MBConvBlock.forward {T : Type} (m : MBConvBlock T) (x : T) : T :=
  let inputs := x
  let x := if m.expand_ratio ≠ 1 then m.expand_conv x else x
  let x := m.depthwise_conv x
  let x :=
    if m.has_se then m.mul x (m.sigmoid (m.squeeze_expand (m.avg_pool x)))
    else x
  let x := m.project_conv x
  if m.id_skip = true ∧ m.stride = 1 ∧ m.n_inp = m.n_out then
    m.add (m.drop_conncet x) inputs
  else x

/-- Convolutional path of the block as the claim describes it: expansion
when `expand_ratio != 1`, then depthwise convolution, optional
squeeze-and-excitation, then pointwise projection.  Stated from the
claim's words, to be compared with `MBConvBlock.forward`. -/
def mbConvPathClaim {T : Type} (m : MBConvBlock T) (x : T) : T :=
  let x1 := if m.expand_ratio ≠ 1 then m.expand_conv x else x
  let x2 := m.depthwise_conv x1
  let x3 :=
    if m.has_se then m.mul x2 (m.sigmoid (m.squeeze_expand (m.avg_pool x2)))
    else x2
  m.project_conv x3

/-! ### `MBConvBlock` and `EfficientNet` (notebook `06c`), shape level -/

/-- Shape semantics of the block's `squeeze_expand` sub-network: two
`ConvLayerDynamicPadding` 1x1 convolutions, `n_intermed → nsq → n_intermed`. -/
def squeezeExpandShape (n_intermed nsq : ℕ) (s : List ℕ) : Option (List ℕ) :=
  (dynPadConvShape n_intermed nsq (1, 1, 1) (1, 1, 1) s).bind
    (dynPadConvShape nsq n_intermed (1, 1, 1) (1, 1, 1))

/-- Shape semantics of `DropConnect` in training mode: multiplication by a
mask of shape `(N, 1, ..., 1)` (in evaluation mode the shape is likewise
unchanged). -/
def dropConnectShape (s : List ℕ) : Option (List ℕ) :=
  match s with
  | [] => none
  | b :: rest => broadcastShape s (b :: rest.map (fun _ => 1))

/-- Shape semantics of `MBConvBlock.forward`, following the source:
optional expansion, depthwise convolution, optional squeeze-and-excitation
(global pool, squeeze-expand, broadcasted multiply), pointwise projection,
and the skip connection (drop-connect plus input) exactly when
`id_skip and stride == 1 and n_inp == n_out`. -/
def mbConvShape (n_inp n_out kernel_size stride : ℕ) (se_ratio : Option ℚ)
    (id_skip : Bool) (expand_ratio : ℕ) (s : List ℕ) : Option (List ℕ) :=
  (if expand_ratio ≠ 1 then
      dynPadConvShape n_inp (n_inp * expand_ratio) (1, 1, 1) (1, 1, 1) s
   else some s).bind fun s1 =>
  (dynPadConvShape (n_inp * expand_ratio) (n_inp * expand_ratio)
      (kernel_size, kernel_size, kernel_size) (stride, stride, stride) s1).bind fun s2 =>
  (match se_ratio with
   | some r =>
      if 0 < r ∧ r ≤ 1 then
        (adaptiveAvgPool3dShape s2).bind fun sp =>
        (squeezeExpandShape (n_inp * expand_ratio)
            (numSqueezedChannels n_inp r) sp).bind fun se =>
        broadcastShape s2 se
      else some s2
   | none => some s2).bind fun s3 =>
  (dynPadConvShape (n_inp * expand_ratio) n_out (1, 1, 1) (1, 1, 1) s3).bind fun s4 =>
  if id_skip = true ∧ stride = 1 ∧ n_inp = n_out then
    (dropConnectShape s4).bind fun s5 => broadcastShape s5 s
  else some s4

/-- Source translation of `EfficientNet.get_n_channels`.  The first line
of the source, `if not width_coefficient: return filters`, refers to an
undefined variable `filters` and raises `NameError`; this (and only this)
is modelled by `none`.  Python floats are idealised as `ℚ`, `int()` as
`pyInt` and `//` as `Int.fdiv`. -/
def get_n_channels (n_channels : ℕ) (width_coefficient : ℚ)
    (depth_divisor : ℕ) (min_depth : Option ℕ) : Option ℤ :=
  if width_coefficient = 0 then none
  else
    let nc : ℚ := (n_channels : ℚ) * width_coefficient
    let m : ℕ :=
      match min_depth with
      | none => depth_divisor
      | some k => if k = 0 then depth_divisor else k
    let base : ℤ :=
      Int.fdiv (pyInt (nc + (depth_divisor : ℚ) / 2)) (depth_divisor : ℤ) *
        (depth_divisor : ℤ)
    let newc : ℤ := max (m : ℤ) base
    some (if (newc : ℚ) < 9 / 10 * nc then newc + (depth_divisor : ℤ) else newc)

/-- Channel count as a natural number (the returned Python int is used as
a channel count; it is always non-negative). -/
def gchN (n_channels : ℕ) (width_coefficient : ℚ) (depth_divisor : ℕ)
    (min_depth : Option ℕ) : Option ℕ :=
  (get_n_channels n_channels width_coefficient depth_divisor min_depth).map
    Int.toNat

/-- One row of `EfficientNet.block_arguments` (a class-level table). -/
structure BlockArgs where
  num_repeat : ℕ
  kernel_size : ℕ
  stride : ℕ
  expand_ratio : ℕ
  in_channels : ℕ
  out_channels : ℕ
  se_ratio : ℚ
  id_skip : Bool

/-- The seven rows of `EfficientNet.block_arguments`. -/
def blockArguments : List BlockArgs :=
  [⟨1, 3, 1, 1, 32, 16, 1 / 4, true⟩,
   ⟨2, 3, 2, 6, 16, 24, 1 / 4, true⟩,
   ⟨2, 4, 2, 6, 24, 40, 1 / 4, true⟩,
   ⟨3, 3, 2, 6, 40, 80, 1 / 4, true⟩,
   ⟨3, 4, 1, 6, 80, 112, 1 / 4, true⟩,
   ⟨4, 4, 2, 6, 112, 192, 1 / 4, true⟩,
   ⟨1, 3, 1, 6, 192, 320, 1 / 4, true⟩]

/-- Effective repeat count:
`if depth_coefficient: num_repeat = int(math.ceil(depth_coefficient * num_repeat))`. -/
def effNumRepeat (dc : ℚ) (r : ℕ) : ℕ :=
  if dc = 0 then r else (⌈dc * (r : ℚ)⌉).toNat

/-- The stack of repeated `MBConvBlock`s of one table row: the first block
uses `(ni, stride)`, afterwards `ni, stride = nf, 1`. -/
def effBlockSeq (ni nf ks st : ℕ) (se_ratio : Option ℚ) (id_skip : Bool)
    (er : ℕ) : ℕ → List ℕ → Option (List ℕ)
  | 0, s => some s
  | reps + 1, s =>
      (mbConvShape ni nf ks st se_ratio id_skip er s).bind
        (effBlockSeq nf nf ks 1 se_ratio id_skip er reps)

/-- Shape semantics of one row of the `EfficientNet.__init__` body loop. -/
def effRowShape (wc dc : ℚ) (dd : ℕ) (md : Option ℕ) (row : BlockArgs)
    (s : List ℕ) : Option (List ℕ) :=
  (gchN row.in_channels wc dd md).bind fun ni =>
  (gchN row.out_channels wc dd md).bind fun nf =>
  effBlockSeq ni nf row.kernel_size row.stride (some row.se_ratio)
    row.id_skip row.expand_ratio (effNumRepeat dc row.num_repeat) s

/-- Shape semantics of the whole body loop over the table rows. -/
def effBody (wc dc : ℚ) (dd : ℕ) (md : Option ℕ) :
    List BlockArgs → List ℕ → Option (List ℕ)
  | [], s => some s
  | row :: rest, s => (effRowShape wc dc dd md row s).bind (effBody wc dc dd md rest)

/-- Shape semantics of `EfficientNet.__init__`'s network applied to an
input: stem (`ConvLayerDynamicPadding` ks 3 stride 2), the seven-row body,
the final 1x1 `ConvLayerDynamicPadding` (whose output width is
`get_n_channels` applied to the previous output width), and the head
(`AdaptiveAvgPool3d(1)`, `Flatten`, `Dropout`, `Linear(nf, num_classes)`). -/
def efficientNetShape (ni num_classes : ℕ) (wc dc : ℚ) (dd : ℕ)
    (md : Option ℕ) (s : List ℕ) : Option (List ℕ) :=
  (gchN 32 wc dd md).bind fun nf_stem =>
  (dynPadConvShape ni nf_stem (3, 3, 3) (2, 2, 2) s).bind fun s1 =>
  (effBody wc dc dd md blockArguments s1).bind fun s2 =>
  (gchN 320 wc dd md).bind fun niL =>
  (gchN niL wc dd md).bind fun nfL =>
  (dynPadConvShape niL nfL (1, 1, 1) (1, 1, 1) s2).bind fun s3 =>
  (adaptiveAvgPool3dShape s3).bind fun s4 =>
  (flattenShape s4).bind fun s5 =>
  linearShape nfL num_classes s5

/-! ### `ASPP` (notebook `06e`, DeepLabV3+), shape level -/

/-- Shape semantics of `ASPPPooling.forward`: remember `size = x.shape[-3:]`,
apply `AdaptiveAvgPool3d(1)` then the 1x1 `ConvLayer`, and trilinearly
interpolate back to `size`. -/
def asppPoolingShape (ni nf : ℕ) (x : List ℕ) : Option (List ℕ) :=
  (adaptiveAvgPool3dShape x).bind fun p =>
  (convShape ni nf [(1, 1, 1, 0), (1, 1, 1, 0), (1, 1, 1, 0)] p).bind fun c =>
  interpolateShape (x.drop (x.length - 3)) c

/-- The parallel branch list of `ASPP.__init__`: one 1x1 convolution, one
3x3x3 convolution with `dilation=d, padding=d` per dilation `d`, and the
pooling branch. -/
def asppBranches (ni nf : ℕ) (dilations : List ℕ) :
    List (List ℕ → Option (List ℕ)) :=
  (convShape ni nf [(1, 1, 1, 0), (1, 1, 1, 0), (1, 1, 1, 0)] ::
      dilations.map (fun dl =>
        convShape ni nf [(3, 1, dl, 2 * dl), (3, 1, dl, 2 * dl), (3, 1, dl, 2 * dl)]))
    ++ [asppPoolingShape ni nf]

/-- Application of every branch to the same input
(`res = [module(x) for module in self.layers]`). -/
def appAll (fs : List (List ℕ → Option (List ℕ))) (x : List ℕ) :
    Option (List (List ℕ)) :=
  match fs with
  | [] => some []
  | f :: rest =>
      (f x).bind fun r => (appAll rest x).bind fun rs => some (r :: rs)

/-- Shape semantics of `ASPP.forward`: concatenate all branch outputs
along the channel dimension and project with a 1x1 convolution of input
width `len(self.layers) * nf` (the trailing `Dropout` keeps the shape). -/
def asppShape (ni : ℕ) (dilations : List ℕ) (nf : ℕ) (x : List ℕ) :
    Option (List ℕ) :=
  (appAll (asppBranches ni nf dilations) x).bind fun res =>
  (catDim1 res).bind fun c =>
  convShape ((asppBranches ni nf dilations).length * nf) nf
    [(1, 1, 1, 0), (1, 1, 1, 0), (1, 1, 1, 0)] c

/-! ### `DeepLabDecoder` and `DynamicDeepLab` (notebook `06e`) -/

/-- Shape semantics of `DeepLabDecoder.forward`:
`s = self.low_lvl_conv(sum(self.hook.stored))` (a 1x1 `ConvLayer` halving
the channel count, `low_lvl_ni → low_lvl_ni // 2`), resize `x` to
`s.shape[-3:]` with `F.interpolate(mode='nearest')` whenever the two
spatial sizes differ, concatenate along the channel dimension, and apply
`last_conv` (two 3x3x3 `ConvLayer`s with padding 1 — dropouts keep the
shape — and a final 1x1 `nn.Conv3d` to `n_out` channels). -/
def deepLabDecoderShape (ni low_lvl_ni n_out : ℕ) (stored : List (List ℕ))
    (x : List ℕ) : Option (List ℕ) :=
  (sumShapes stored).bind fun s0 =>
  (convShape low_lvl_ni (low_lvl_ni / 2)
      [(1, 1, 1, 0), (1, 1, 1, 0), (1, 1, 1, 0)] s0).bind fun s =>
  (if s.drop (s.length - 3) ≠ x.drop (x.length - 3) then
      interpolateShape (s.drop (s.length - 3)) x
   else some x).bind fun x1 =>
  (catDim1 [x1, s]).bind fun c =>
  (convShape (ni + low_lvl_ni / 2) ni
      [(3, 1, 1, 2), (3, 1, 1, 2), (3, 1, 1, 2)] c).bind fun c1 =>
  (convShape ni ni [(3, 1, 1, 2), (3, 1, 1, 2), (3, 1, 1, 2)] c1).bind fun c2 =>
  convShape ni n_out [(1, 1, 1, 0), (1, 1, 1, 0), (1, 1, 1, 0)] c2

/-- An encoder stage: the list of its child modules, each modelled by its
shape function.  `fastai`'s `hook_outputs(encoder[i])` iterates the stage,
hooking every child, so the hook stores one tensor per child. -/
def Stage : Type := List (List ℕ → Option (List ℕ))

/-- Sequential forward pass through the children of a stage. -/
def stageForward (st : Stage) (s : List ℕ) : Option (List ℕ) :=
  match st with
  | [] => some s
  | f :: rest => (f s).bind (stageForward rest)

/-- Output shapes of every child of a stage (what the forward hooks of
`hook_outputs` store during one forward pass). -/
def stageOutputs (st : Stage) (s : List ℕ) : Option (List (List ℕ)) :=
  match st with
  | [] => some []
  | f :: rest =>
      (f s).bind fun r =>
        (stageOutputs rest r).bind fun rs => some (r :: rs)

/-- Model of `fastai`'s `model_sizes` (an excluded external collaborator):
run the dummy input through the top-level layers of the encoder and record
each layer's output shape. -/
def modelSizes (enc : List (List ℕ → Option (List ℕ))) (dummy : List ℕ) :
    Option (List (List ℕ)) :=
  match enc with
  | [] => some []
  | f :: rest =>
      (f dummy).bind fun s =>
        (modelSizes rest s).bind fun sizes => some (s :: sizes)

/-- Feature size of a recorded shape: `size[-1]` as in `fastai`'s
`_get_sz_change_idxs`. -/
def featSz (s : List ℕ) : ℕ := s.getLast?.getD 0

/-- Worker for `szChangeIdxs`, carrying the current index. -/
def szChangeIdxsAux : ℕ → List (List ℕ) → List ℕ
  | _, [] => []
  | _, [_] => []
  | i, a :: b :: rest =>
      (if featSz a ≠ featSz b then [i] else []) ++
        szChangeIdxsAux (i + 1) (b :: rest)

/-- Model of `fastai`'s `_get_sz_change_idxs` (an excluded external
collaborator): the indices `i` with `feature_szs[i] != feature_szs[i+1]`. -/
def szChangeIdxs (sizes : List (List ℕ)) : List ℕ :=
  szChangeIdxsAux 0 sizes

/-- Data computed by `DynamicDeepLab.__init__`: the hook position, the
ASPP widths and dilations, the low-level channel count and the shape of
the decoder's dummy output. -/
structure DeepLabConfig where
  hookIdx : ℕ
  ni : ℕ
  nf : ℕ
  dilations : List ℕ
  lowLvlNi : ℕ
  outShape : List ℕ
deriving DecidableEq

/-- Source translation of `DynamicDeepLab.__init__` at the shape level:
`sizes = model_sizes(encoder, size=img_size)`;
`sz_chg_idxs = list(_get_sz_change_idxs(sizes))`;
`self.sfs = hook_outputs(encoder[sz_chg_idxs[1]], detach=False)` (the hook
sits on the layer at the second size-change index, and stores the outputs
of that layer's children);
`ni = sizes[-1][1]`, `nf = ni//4`,
`dilations = [1,12,24,36] if ni > 512 else [1,6,12,18]`;
dummy passes through `ASPP` and `DeepLabDecoder` with
`low_lvl_ni = sizes[sz_chg_idxs[1]][1]`.  `none` models any raised error
(e.g. `sz_chg_idxs[1]` out of range, or a dummy forward failure). -/
def dynamicDeepLabInit (enc : List Stage) (n_out inCh dI hI wI : ℕ) :
    Option DeepLabConfig :=
  let dummy : List ℕ := [1, inCh, dI, hI, wI]
  (modelSizes (enc.map stageForward) dummy).bind fun sizes =>
  ((szChangeIdxs sizes).get? 1).bind fun hookIdx =>
  (enc.get? hookIdx).bind fun hookedStage =>
  (if hookIdx = 0 then some dummy else sizes.get? (hookIdx - 1)).bind fun stageIn =>
  (stageOutputs hookedStage stageIn).bind fun stored =>
  sizes.getLast?.bind fun xEnc =>
  (xEnc.get? 1).bind fun ni =>
  let nf := ni / 4
  let dils := if 512 < ni then [1, 12, 24, 36] else [1, 6, 12, 18]
  (asppShape ni dils nf xEnc).bind fun x1 =>
  (sizes.get? hookIdx).bind fun lowSz =>
  (lowSz.get? 1).bind fun lowLvlNi =>
  (deepLabDecoderShape nf lowLvlNi n_out stored x1).bind fun out =>
  some ⟨hookIdx, ni, nf, dils, lowLvlNi, out⟩

/-! ### Concrete fixtures used by witnesses and counterexamples -/

/-- A concrete block over `ℤ` whose skip-connection condition holds. -/
def mbW : MBConvBlock ℤ where
  n_inp := 4
  n_out := 4
  kernel_size := 3
  stride := 1
  se_ratio := some (1 / 4)
  id_skip := true
  expand_ratio := 6
  expand_conv := (· + 1)
  depthwise_conv := (· * 2)
  squeeze_expand := (· + 3)
  project_conv := (· - 1)
  drop_conncet := (· * 5)
  avg_pool := (· + 7)
  sigmoid := (· * 11)
  mul := (· * ·)
  add := (· + ·)

/-- A small 3D encoder: three single-child stages of stride-2 3x3x3
convolutions, `3 → 16 → 32 → 64` channels. -/
def enc3 : List Stage :=
  [[convShape 3 16 [(3, 2, 1, 2), (3, 2, 1, 2), (3, 2, 1, 2)]],
   [convShape 16 32 [(3, 2, 1, 2), (3, 2, 1, 2), (3, 2, 1, 2)]],
   [convShape 32 64 [(3, 2, 1, 2), (3, 2, 1, 2), (3, 2, 1, 2)]]]

/-- The configuration `DynamicDeepLab.__init__` computes on `enc3` with
`n_out=2`, 3 input channels and image size `(8, 16, 16)`. -/
def cfgW : DeepLabConfig :=
  ⟨1, 64, 16, [1, 6, 12, 18], 32, [1, 2, 2, 4, 4]⟩

/-- A 2D encoder: a single stage whose child is an `nn.Conv2d`
(`3 → 64`, kernel 7, stride 2, padding 3), the stem of a standard
pretrained 2D ResNet.  A 2D convolution rejects 5-dimensional input. -/
def enc2d : List Stage :=
  [[convShape 3 64 [(7, 2, 1, 6), (7, 2, 1, 6)]]]

/-- Expansion-then-depthwise prefix of the block's convolutional path, as
the claims describe it. -/
def mbDwOut {T : Type} (m : MBConvBlock T) (x : T) : T :=
  m.depthwise_conv (if m.expand_ratio ≠ 1 then m.expand_conv x else x)

/-- Squeeze-and-excitation application as claim C4 describes it: the
depthwise output `y` is multiplied elementwise by the sigmoid of the
squeeze-expand network applied to its global (size-1) average pool. -/
def mbSeApplied {T : Type} (m : MBConvBlock T) (y : T) : T :=
  m.mul y (m.sigmoid (m.squeeze_expand (m.avg_pool y)))

/-- Uniform draws used by the `DropConnect` witness. -/
def uW : ℕ → ℚ := fun b => if b = 0 then 1 / 4 else 3 / 4

/-! ### Helper lemmas -/

theorem calcPad_sum (ks : ℕ) (h : 1 ≤ ks) :
    (calculate_padding ks).1 + (calculate_padding ks).2 = ks - 1 := by
  unfold calculate_padding
  split <;> simp <;> omega

theorem convOutDim_dynpad (n ks st a c : ℕ) (hks : 1 ≤ ks) (hst : 1 ≤ st)
    (hn : 1 ≤ n) (hac : a + c = ks - 1) :
    convOutDim (n + c + a) ks st 1 0 = some ((n - 1) / st + 1) := by
  simp only [convOutDim]
  rw [if_pos ⟨hst, by omega⟩]
  have hA : n + c + a + 0 - (1 * (ks - 1) + 1) = n - 1 := by omega
  rw [hA]

theorem convOutDim_same (n ks dl pt : ℕ) (hpt : dl * (ks - 1) = pt) (hn : 1 ≤ n) :
    convOutDim n ks 1 dl pt = some n := by
  simp only [convOutDim]
  rw [if_pos ⟨le_refl 1, by omega⟩]
  have hA : n + pt - (dl * (ks - 1) + 1) = n - 1 := by omega
  have hB : (n - 1) / 1 + 1 = n := by omega
  rw [hA, hB]

theorem convDims_three (n1 n2 n3 m1 m2 m3 : ℕ) (q1 q2 q3 : ℕ × ℕ × ℕ × ℕ)
    (h1 : convOutDim n1 q1.1 q1.2.1 q1.2.2.1 q1.2.2.2 = some m1)
    (h2 : convOutDim n2 q2.1 q2.2.1 q2.2.2.1 q2.2.2.2 = some m2)
    (h3 : convOutDim n3 q3.1 q3.2.1 q3.2.2.1 q3.2.2.2 = some m3) :
    convDims [n1, n2, n3] [q1, q2, q3] = some [m1, m2, m3] := by
  simp only [convDims, h1, h2, h3, Option.some_bind]

theorem convShape_eval (ni nf b d h w m1 m2 m3 : ℕ) (q1 q2 q3 : ℕ × ℕ × ℕ × ℕ)
    (h1 : convOutDim d q1.1 q1.2.1 q1.2.2.1 q1.2.2.2 = some m1)
    (h2 : convOutDim h q2.1 q2.2.1 q2.2.2.1 q2.2.2.2 = some m2)
    (h3 : convOutDim w q3.1 q3.2.1 q3.2.2.1 q3.2.2.2 = some m3) :
    convShape ni nf [q1, q2, q3] [b, ni, d, h, w] = some [b, nf, m1, m2, m3] := by
  have hc := convDims_three d h w m1 m2 m3 q1 q2 q3 h1 h2 h3
  simp only [convShape, List.length_cons, List.length_nil, hc, Option.some_bind,
    and_true, if_pos]

theorem dynPadConv_eval (ni nf b d h w k1 k2 k3 t1 t2 t3 : ℕ)
    (hk1 : 1 ≤ k1) (hk2 : 1 ≤ k2) (hk3 : 1 ≤ k3)
    (ht1 : 1 ≤ t1) (ht2 : 1 ≤ t2) (ht3 : 1 ≤ t3)
    (hd : 1 ≤ d) (hh : 1 ≤ h) (hw : 1 ≤ w) :
    dynPadConvShape ni nf (k1, k2, k3) (t1, t2, t3) [b, ni, d, h, w] =
      some [b, nf, (d - 1) / t1 + 1, (h - 1) / t2 + 1, (w - 1) / t3 + 1] := by
  obtain ⟨a1, c1, h1⟩ : ∃ a c, calculate_padding k1 = (a, c) := ⟨_, _, rfl⟩
  obtain ⟨a2, c2, h2⟩ : ∃ a c, calculate_padding k2 = (a, c) := ⟨_, _, rfl⟩
  obtain ⟨a3, c3, h3⟩ : ∃ a c, calculate_padding k3 = (a, c) := ⟨_, _, rfl⟩
  have s1 : a1 + c1 = k1 - 1 := by have := calcPad_sum k1 hk1; rw [h1] at this; exact this
  have s2 : a2 + c2 = k2 - 1 := by have := calcPad_sum k2 hk2; rw [h2] at this; exact this
  have s3 : a3 + c3 = k3 - 1 := by have := calcPad_sum k3 hk3; rw [h3] at this; exact this
  unfold dynPadConvShape
  have hpl : (paddingList k1 k2 k3).reverse = [c3, a3, c2, a2, c1, a1] := by
    rw [paddingList, h1, h2, h3]
    rfl
  rw [hpl]
  have hpad : constantPad3dShape [c3, a3, c2, a2, c1, a1] [b, ni, d, h, w] =
      some [b, ni, d + c1 + a1, h + c2 + a2, w + c3 + a3] := rfl
  rw [hpad, Option.some_bind]
  exact convShape_eval ni nf b _ _ _ _ _ _ _ _ _
    (convOutDim_dynpad d k1 t1 a1 c1 hk1 ht1 hd s1)
    (convOutDim_dynpad h k2 t2 a2 c2 hk2 ht2 hh s2)
    (convOutDim_dynpad w k3 t3 a3 c3 hk3 ht3 hw s3)

/-! ### Claim C9 -/

/-- C9: for every kernel size `ks ≥ 1`, `calculate_padding ks` returns a
pair of naturals summing to `ks - 1` (equal components for odd `ks`,
components differing by exactly one for even `ks`), so the
`ConstantPad3d` layer prepended by `ConvLayerDynamicPadding` adds `ks - 1`
total padding per spatial axis and a stride-1 convolution preserves the
spatial size for odd and even kernel sizes alike. -/
theorem calculate_padding_spec (ks : ℕ) (hks : 1 ≤ ks) :
    (calculate_padding ks).1 + (calculate_padding ks).2 = ks - 1 ∧
    (ks % 2 = 1 → (calculate_padding ks).1 = (calculate_padding ks).2) ∧
    (ks % 2 = 0 → (calculate_padding ks).1 = (calculate_padding ks).2 + 1) ∧
    ∀ ni nf b d h w : ℕ, 1 ≤ d → 1 ≤ h → 1 ≤ w →
      dynPadConvShape ni nf (ks, ks, ks) (1, 1, 1) [b, ni, d, h, w] =
        some [b, nf, d, h, w] := by
  refine ⟨calcPad_sum ks hks, ?_, ?_, ?_⟩
  · intro hodd; unfold calculate_padding; split <;> simp <;> omega
  · intro heven; unfold calculate_padding; split <;> simp <;> omega
  · intro ni nf b d h w hd hh hw
    rw [dynPadConv_eval ni nf b d h w ks ks ks 1 1 1 hks hks hks
      (le_refl 1) (le_refl 1) (le_refl 1) hd hh hw]
    have e : ∀ n, 1 ≤ n → (n - 1) / 1 + 1 = n := fun n hn => by omega
    rw [e d hd, e h hh, e w hw]

/-- Witness for C9 at the even kernel size 4. -/
theorem calculate_padding_spec_witness :
    (calculate_padding 4).1 + (calculate_padding 4).2 = 3 ∧
    dynPadConvShape 5 7 (4, 4, 4) (1, 1, 1) [1, 5, 6, 6, 6] =
      some [1, 7, 6, 6, 6] :=
  ⟨(calculate_padding_spec 4 (by decide)).1,
   (calculate_padding_spec 4 (by decide)).2.2.2 5 7 1 6 6 6
     (by decide) (by decide) (by decide)⟩

/-! ### Claim C8 (corrected) -/

/-- C8 counterexample: `DropConnect.__init__` does define error behaviour —
its assertion `0 <= p <= 1` rejects the drop probability `2`
(`AssertionError` in the source, `none` in the model), contradicting the
claim that no operation raises an error by design. -/
theorem dropconnect_init_rejects : DropConnect.init 2 = none := by
  unfold DropConnect.init
  rw [if_neg]
  norm_num

/-- C8 amended: the only designed error behaviour in the repository is the
assertion in `DropConnect.__init__`, which succeeds exactly for drop
probabilities in `[0, 1]`. -/
theorem dropconnect_init_iff (p : ℚ) :
    (DropConnect.init p).isSome = true ↔ 0 ≤ p ∧ p ≤ 1 := by
  unfold DropConnect.init
  split <;> simp_all

/-! ### Claim C6 -/

/-- C6: for every `p ∈ [0, 1]` and every input, `DropConnect.forward`
returns its input unchanged when the module is not in training mode. -/
theorem dropconnect_eval_identity (p : ℚ) (u : ℕ → ℚ) (x : List (List ℚ))
    (hp0 : 0 ≤ p) (hp1 : p ≤ 1) :
    DropConnect.forward (1 - p) false u x = x := rfl

/-- Witness for C6. -/
theorem dropconnect_eval_identity_witness :
    DropConnect.forward (1 - 1 / 2) false uW [[2, 4], [6]] = [[2, 4], [6]] :=
  dropconnect_eval_identity (1 / 2) uW [[2, 4], [6]] (by norm_num) (by norm_num)

/-! ### Claim C5 -/

theorem dropConnectRows_get (kp : ℚ) (u : ℕ → ℚ) :
    ∀ (x : List (List ℚ)) (k i : ℕ),
      (dropConnectRows kp u k x).get? i =
        (x.get? i).map fun row => row.map fun v =>
          v / kp * dropConnectMask kp (u (k + i))
  | [], _, i => by simp [dropConnectRows]
  | row :: rest, k, 0 => by simp [dropConnectRows]
  | row :: rest, k, i + 1 => by
      simp only [dropConnectRows, List.get?_cons_succ]
      rw [dropConnectRows_get kp u rest (k + 1) i]
      have : k + 1 + i = k + (i + 1) := by omega
      rw [this]

theorem dropConnectMask_cases (p uu : ℚ) (hp0 : 0 ≤ p) (hp1 : p < 1)
    (hu0 : 0 ≤ uu) (hu1 : uu < 1) :
    dropConnectMask (1 - p) uu = 0 ∨ dropConnectMask (1 - p) uu = 1 := by
  unfold dropConnectMask
  have h0 : (0 : ℤ) ≤ ⌊1 - p + uu⌋ := Int.floor_nonneg.mpr (by linarith)
  have h2 : ⌊1 - p + uu⌋ < 2 := by
    rw [Int.floor_lt]
    push_cast
    linarith
  have hc : ⌊1 - p + uu⌋ = 0 ∨ ⌊1 - p + uu⌋ = 1 := by omega
  rcases hc with h | h
  · left; rw [h]; norm_num
  · right; rw [h]; norm_num

/-- C5: in training mode with `0 ≤ p < 1` and per-batch uniform draws in
`[0, 1)`, every batch element of the output of `DropConnect.forward` is
either the all-zero row or the input row scaled by `1/(1-p)`; the mask
entry of batch element `i` is `⌊(1-p) + u i⌋`, which is `0` or `1`, and is
shared across all positions of that batch element. -/
theorem dropconnect_training_bernoulli (p : ℚ) (u : ℕ → ℚ)
    (x : List (List ℚ)) (hp0 : 0 ≤ p) (hp1 : p < 1)
    (hu : ∀ i, 0 ≤ u i ∧ u i < 1) :
    ∀ i rb, x.get? i = some rb →
      (dropConnectMask (1 - p) (u i) = 0 ∨ dropConnectMask (1 - p) (u i) = 1) ∧
      ((DropConnect.forward (1 - p) true u x).get? i =
          some (rb.map fun _ => (0 : ℚ)) ∨
       (DropConnect.forward (1 - p) true u x).get? i =
          some (rb.map fun v => v * (1 / (1 - p)))) := by
  intro i rb hrb
  have hm := dropConnectMask_cases p (u i) hp0 hp1 (hu i).1 (hu i).2
  refine ⟨hm, ?_⟩
  have hfwd : DropConnect.forward (1 - p) true u x =
      dropConnectRows (1 - p) u 0 x := rfl
  rw [hfwd, dropConnectRows_get (1 - p) u x 0 i, hrb, Nat.zero_add]
  rcases hm with h | h
  · left
    have hfun : (fun v : ℚ => v / (1 - p) * dropConnectMask (1 - p) (u i)) =
        fun _ => (0 : ℚ) := by
      funext v; rw [h]; ring
    rw [Option.map_some', hfun]
  · right
    have hfun : (fun v : ℚ => v / (1 - p) * dropConnectMask (1 - p) (u i)) =
        fun v => v * (1 / (1 - p)) := by
      funext v; rw [h]; ring
    rw [Option.map_some', hfun]

/-- Witness for C5 at `p = 1/2` with draws `uW`. -/
theorem dropconnect_training_bernoulli_witness :
    (dropConnectMask (1 - 1 / 2) (uW 1) = 0 ∨
       dropConnectMask (1 - 1 / 2) (uW 1) = 1) ∧
    ((DropConnect.forward (1 - 1 / 2) true uW [[2, 4], [6]]).get? 1 =
        some ([6].map fun _ => (0 : ℚ)) ∨
     (DropConnect.forward (1 - 1 / 2) true uW [[2, 4], [6]]).get? 1 =
        some ([6].map fun v => v * (1 / (1 - 1 / 2)))) :=
  dropconnect_training_bernoulli (1 / 2) uW [[2, 4], [6]] (by norm_num)
    (by norm_num) (fun i => by unfold uW; split <;> norm_num) 1 [6] rfl

/-! ### Claim C3 -/

/-- C3: the residual skip connection of `MBConvBlock.forward` is applied
if and only if `id_skip` holds, `stride = 1` and `n_inp = n_out`; in that
case the output is `DropConnect` applied to the convolutional path plus
the unmodified input, otherwise the convolutional path alone (expansion
when `expand_ratio ≠ 1`, then depthwise convolution, optional
squeeze-and-excitation, then pointwise projection — `mbConvPathClaim`). -/
theorem mbconv_skip_characterization (T : Type) (m : MBConvBlock T) (x : T) :
    ((m.id_skip = true ∧ m.stride = 1 ∧ m.n_inp = m.n_out) →
        m.forward x = m.add (m.drop_conncet (mbConvPathClaim m x)) x) ∧
    (¬(m.id_skip = true ∧ m.stride = 1 ∧ m.n_inp = m.n_out) →
        m.forward x = mbConvPathClaim m x) := by
  constructor
  · intro hc
    simp only [MBConvBlock.forward, mbConvPathClaim]
    rw [if_pos hc]
  · intro hc
    simp only [MBConvBlock.forward, mbConvPathClaim]
    rw [if_neg hc]

/-- Witness for C3 on the concrete block `mbW` (whose skip condition
holds). -/
theorem mbconv_skip_characterization_witness :
    mbW.forward 9 = mbW.add (mbW.drop_conncet (mbConvPathClaim mbW 9)) 9 :=
  (mbconv_skip_characterization ℤ mbW 9).1 ⟨rfl, rfl, rfl⟩

/-! ### Claim C4 -/

/-- C4: the squeeze-and-excitation branch of an `MBConvBlock` is active if
and only if `se_ratio` is not `None` and `0 < se_ratio ≤ 1`; when active
it uses `max(1, int(n_inp * se_ratio))` squeezed channels (`int` being the
floor here, the product being non-negative), and `forward` multiplies the
depthwise-convolution output elementwise by the sigmoid of the
squeeze-expand network applied to its global size-1 average pool. -/
theorem mbconv_squeeze_excitation (T : Type) (m : MBConvBlock T) (x : T) :
    (m.has_se = true ↔ ∃ r, m.se_ratio = some r ∧ 0 < r ∧ r ≤ 1) ∧
    (∀ r : ℚ, 0 < r → r ≤ 1 →
        numSqueezedChannels m.n_inp r =
          max 1 (pyInt ((m.n_inp : ℚ) * r)).toNat ∧
        pyInt ((m.n_inp : ℚ) * r) = ⌊(m.n_inp : ℚ) * r⌋) ∧
    (m.has_se = true →
        m.forward x =
          if m.id_skip = true ∧ m.stride = 1 ∧ m.n_inp = m.n_out then
            m.add (m.drop_conncet (m.project_conv (mbSeApplied m (mbDwOut m x)))) x
          else m.project_conv (mbSeApplied m (mbDwOut m x))) := by
  refine ⟨?_, ?_, ?_⟩
  · rcases hse : m.se_ratio with _ | r
    · simp [MBConvBlock.has_se, mbHasSe, hse]
    · simp [MBConvBlock.has_se, mbHasSe, hse]
  · intro r hr0 hr1
    refine ⟨rfl, ?_⟩
    unfold pyInt
    rw [if_pos (mul_nonneg (Nat.cast_nonneg _) (le_of_lt hr0))]
  · intro hse
    simp only [MBConvBlock.forward, mbDwOut, mbSeApplied, hse, if_true]

/-- Witness for C4 on the concrete block `mbW`. -/
theorem mbconv_squeeze_excitation_witness :
    numSqueezedChannels mbW.n_inp (1 / 4) =
      max 1 (pyInt ((mbW.n_inp : ℚ) * (1 / 4))).toNat ∧
    pyInt ((mbW.n_inp : ℚ) * (1 / 4)) = ⌊(mbW.n_inp : ℚ) * (1 / 4)⌋ :=
  (mbconv_squeeze_excitation ℤ mbW 0).2.1 (1 / 4) (by norm_num) (by norm_num)

/-! ### Helper lemmas for the 3D convolution shapes used by ASPP and the decoder -/

theorem conv1x1_eval (ni nf b d h w : ℕ) (hd : 1 ≤ d) (hh : 1 ≤ h) (hw : 1 ≤ w) :
    convShape ni nf [(1, 1, 1, 0), (1, 1, 1, 0), (1, 1, 1, 0)] [b, ni, d, h, w] =
      some [b, nf, d, h, w] :=
  convShape_eval ni nf b d h w d h w _ _ _
    (convOutDim_same d 1 1 0 rfl hd)
    (convOutDim_same h 1 1 0 rfl hh)
    (convOutDim_same w 1 1 0 rfl hw)

theorem conv3x3p1_eval (ni nf b d h w : ℕ) (hd : 1 ≤ d) (hh : 1 ≤ h) (hw : 1 ≤ w) :
    convShape ni nf [(3, 1, 1, 2), (3, 1, 1, 2), (3, 1, 1, 2)] [b, ni, d, h, w] =
      some [b, nf, d, h, w] :=
  convShape_eval ni nf b d h w d h w _ _ _
    (convOutDim_same d 3 1 2 rfl hd)
    (convOutDim_same h 3 1 2 rfl hh)
    (convOutDim_same w 3 1 2 rfl hw)

theorem convDil_eval (ni nf dl b d h w : ℕ) (hd : 1 ≤ d) (hh : 1 ≤ h) (hw : 1 ≤ w) :
    convShape ni nf [(3, 1, dl, 2 * dl), (3, 1, dl, 2 * dl), (3, 1, dl, 2 * dl)]
      [b, ni, d, h, w] = some [b, nf, d, h, w] :=
  convShape_eval ni nf b d h w d h w _ _ _
    (convOutDim_same d 3 dl (2 * dl) (by omega) hd)
    (convOutDim_same h 3 dl (2 * dl) (by omega) hh)
    (convOutDim_same w 3 dl (2 * dl) (by omega) hw)

theorem asppPooling_eval (ni nf b d h w : ℕ) (hd : 1 ≤ d) (hh : 1 ≤ h) (hw : 1 ≤ w) :
    asppPoolingShape ni nf [b, ni, d, h, w] = some [b, nf, d, h, w] := by
  unfold asppPoolingShape
  have hpool : adaptiveAvgPool3dShape [b, ni, d, h, w] = some [b, ni, 1, 1, 1] := by
    simp [adaptiveAvgPool3dShape, hd, hh, hw]
  rw [hpool, Option.some_bind,
    conv1x1_eval ni nf b 1 1 1 (le_refl 1) (le_refl 1) (le_refl 1),
    Option.some_bind]
  have hdrop : ([b, ni, d, h, w] : List ℕ).drop ([b, ni, d, h, w].length - 3) =
      [d, h, w] := rfl
  rw [hdrop]
  simp [interpolateShape, hd, hh, hw]

theorem appAll_append (xs ys : List (List ℕ → Option (List ℕ))) (x : List ℕ) :
    appAll (xs ++ ys) x =
      (appAll xs x).bind fun a => (appAll ys x).bind fun c => some (a ++ c) := by
  induction xs with
  | nil =>
      rw [List.nil_append]
      show appAll ys x =
        (some []).bind fun a => (appAll ys x).bind fun c => some (a ++ c)
      rw [Option.some_bind]
      cases h : appAll ys x
      · rfl
      · simp
  | cons f rest ih =>
      rw [List.cons_append]
      show ((f x).bind fun r =>
          (appAll (rest ++ ys) x).bind fun rs => some (r :: rs)) =
        ((f x).bind fun r =>
          (appAll rest x).bind fun rs => some (r :: rs)).bind fun a =>
            (appAll ys x).bind fun c => some (a ++ c)
      rw [ih]
      cases hf : f x
      · rfl
      · cases ha : appAll rest x
        · simp
        · cases hc : appAll ys x
          · simp
          · simp

theorem appAll_map_dil (ni nf b d h w : ℕ) (hd : 1 ≤ d) (hh : 1 ≤ h) (hw : 1 ≤ w) :
    ∀ dils : List ℕ,
      appAll (dils.map fun dl =>
          convShape ni nf [(3, 1, dl, 2 * dl), (3, 1, dl, 2 * dl), (3, 1, dl, 2 * dl)])
        [b, ni, d, h, w] =
        some (List.replicate dils.length [b, nf, d, h, w])
  | [] => by simp [appAll]
  | dl :: rest => by
      simp only [List.map_cons, appAll, convDil_eval ni nf dl b d h w hd hh hw,
        appAll_map_dil ni nf b d h w hd hh hw rest, Option.some_bind,
        List.length_cons, List.replicate_succ]

theorem appAll_aspp (ni nf b d h w : ℕ) (dils : List ℕ)
    (hd : 1 ≤ d) (hh : 1 ≤ h) (hw : 1 ≤ w) :
    appAll (asppBranches ni nf dils) [b, ni, d, h, w] =
      some (List.replicate (dils.length + 2) [b, nf, d, h, w]) := by
  unfold asppBranches
  rw [appAll_append]
  simp only [appAll, conv1x1_eval ni nf b d h w hd hh hw,
    appAll_map_dil ni nf b d h w hd hh hw dils,
    asppPooling_eval ni nf b d h w hd hh hw, Option.some_bind]
  congr 1
  rw [← List.replicate_succ, ← List.replicate_succ']

theorem catDim1Aux_replicate (b c : ℕ) (sp : List ℕ) :
    ∀ m, catDim1Aux b sp (List.replicate m (b :: c :: sp)) = some (m * c)
  | 0 => by simp [catDim1Aux]
  | m + 1 => by
      rw [List.replicate_succ]
      show (if b = b ∧ sp = sp then
          (catDim1Aux b sp (List.replicate m (b :: c :: sp))).bind fun k =>
            some (c + k)
        else none) = some ((m + 1) * c)
      rw [if_pos ⟨rfl, rfl⟩, catDim1Aux_replicate b c sp m, Option.some_bind]
      congr 1
      ring

theorem catDim1_replicate (b c : ℕ) (sp : List ℕ) (m : ℕ) :
    catDim1 (List.replicate (m + 1) (b :: c :: sp)) =
      some (b :: ((m + 1) * c) :: sp) := by
  rw [List.replicate_succ]
  show (catDim1Aux b sp ((b :: c :: sp) :: List.replicate m (b :: c :: sp))).bind
      (fun tot => some (b :: tot :: sp)) = some (b :: ((m + 1) * c) :: sp)
  rw [← List.replicate_succ, catDim1Aux_replicate b c sp (m + 1), Option.some_bind]

/-! ### Claim C7 -/

/-- C7: `ASPP(ni, dilations, nf)` applies `len(dilations) + 2` parallel
branches — one 1x1 convolution, one 3x3x3 atrous convolution with padding
equal to its dilation per dilation, and one pooled branch trilinearly
interpolated back to the input size — concatenates them along channels and
projects to `nf` channels, so the output has `nf` channels and exactly the
input's spatial size. -/
theorem aspp_branches_and_shape (ni nf b d h w : ℕ) (dils : List ℕ)
    (hd : 1 ≤ d) (hh : 1 ≤ h) (hw : 1 ≤ w) :
    (asppBranches ni nf dils).length = dils.length + 2 ∧
    asppShape ni dils nf [b, ni, d, h, w] = some [b, nf, d, h, w] := by
  have hlen : (asppBranches ni nf dils).length = dils.length + 2 := by
    simp [asppBranches]
  refine ⟨hlen, ?_⟩
  unfold asppShape
  rw [appAll_aspp ni nf b d h w dils hd hh hw, Option.some_bind,
    show dils.length + 2 = dils.length + 1 + 1 from rfl,
    catDim1_replicate b nf [d, h, w] (dils.length + 1), Option.some_bind, hlen]
  exact conv1x1_eval ((dils.length + 2) * nf) nf b d h w hd hh hw

/-- Witness for C7 on the notebook's own test configuration. -/
theorem aspp_branches_and_shape_witness :
    (asppBranches 2048 256 [1, 6, 12, 18]).length = 6 ∧
    asppShape 2048 [1, 6, 12, 18] 256 [10, 2048, 1, 3, 3] =
      some [10, 256, 1, 3, 3] :=
  aspp_branches_and_shape 2048 256 10 1 3 3 [1, 6, 12, 18]
    (by decide) (by decide) (by decide)

/-! ### Helper lemmas for the EfficientNet shape pipeline -/

theorem broadcastDim_self (a : ℕ) : broadcastDim a a = some a := by
  simp [broadcastDim]

theorem broadcastDim_one (a : ℕ) : broadcastDim a 1 = some a := by
  unfold broadcastDim
  by_cases h : a = 1
  · rw [if_pos h, h]
  · rw [if_neg h, if_neg h, if_pos rfl]

theorem broadcastRev_self : ∀ l : List ℕ, broadcastRev l l = some l
  | [] => rfl
  | a :: t => by
      show (broadcastDim a a).bind
        (fun c => (broadcastRev t t).bind fun r => some (c :: r)) = some (a :: t)
      rw [broadcastDim_self, Option.some_bind, broadcastRev_self t, Option.some_bind]

theorem broadcast_self (s : List ℕ) : broadcastShape s s = some s := by
  unfold broadcastShape
  rw [broadcastRev_self, Option.some_bind, List.reverse_reverse]

theorem broadcast_mask5 (b c x y z : ℕ) :
    broadcastShape [b, c, x, y, z] [b, c, 1, 1, 1] = some [b, c, x, y, z] := by
  show (broadcastRev [z, y, x, c, b] [1, 1, 1, c, b]).bind
    (fun r => some r.reverse) = some [b, c, x, y, z]
  simp only [broadcastRev, broadcastDim_one, broadcastDim_self, Option.some_bind]
  rfl

theorem broadcast_batch5 (b c x y z : ℕ) :
    broadcastShape [b, c, x, y, z] [b, 1, 1, 1, 1] = some [b, c, x, y, z] := by
  show (broadcastRev [z, y, x, c, b] [1, 1, 1, 1, b]).bind
    (fun r => some r.reverse) = some [b, c, x, y, z]
  simp only [broadcastRev, broadcastDim_one, broadcastDim_self, Option.some_bind]
  rfl

theorem gchN_some (n : ℕ) (wc : ℚ) (dd : ℕ) (md : Option ℕ) (h : wc ≠ 0) :
    ∃ k, gchN n wc dd md = some k := by
  unfold gchN get_n_channels
  rw [if_neg h]
  exact ⟨_, rfl⟩

theorem div_one_succ (n : ℕ) (hn : 1 ≤ n) : (n - 1) / 1 + 1 = n := by omega

theorem dynPadConv_one (ni nf b d h w : ℕ) (hd : 1 ≤ d) (hh : 1 ≤ h)
    (hw : 1 ≤ w) :
    dynPadConvShape ni nf (1, 1, 1) (1, 1, 1) [b, ni, d, h, w] =
      some [b, nf, d, h, w] := by
  rw [dynPadConv_eval ni nf b d h w 1 1 1 1 1 1 (le_refl 1) (le_refl 1)
    (le_refl 1) (le_refl 1) (le_refl 1) (le_refl 1) hd hh hw,
    div_one_succ d hd, div_one_succ h hh, div_one_succ w hw]

theorem dynPadConv_stem (ni nf b d h w : ℕ) (hd : 1 ≤ d) (hh : 1 ≤ h)
    (hw : 1 ≤ w) :
    dynPadConvShape ni nf (3, 3, 3) (2, 2, 2) [b, ni, d, h, w] =
      some [b, nf, halveDim d, halveDim h, halveDim w] :=
  dynPadConv_eval ni nf b d h w 3 3 3 2 2 2 (by omega) (by omega) (by omega)
    (by omega) (by omega) (by omega) hd hh hw

theorem halveDim_pos (n : ℕ) : 1 ≤ halveDim n := by
  unfold halveDim
  omega

theorem mbConv_eval (nI nO ks st er b d h w : ℕ) (ser : Option ℚ) (skip : Bool)
    (hks : 1 ≤ ks) (hst : 1 ≤ st) (hd : 1 ≤ d) (hh : 1 ≤ h) (hw : 1 ≤ w) :
    mbConvShape nI nO ks st ser skip er [b, nI, d, h, w] =
      some [b, nO, (d - 1) / st + 1, (h - 1) / st + 1, (w - 1) / st + 1] := by
  have hd2 : 1 ≤ (d - 1) / st + 1 := Nat.le_add_left 1 _
  have hh2 : 1 ≤ (h - 1) / st + 1 := Nat.le_add_left 1 _
  have hw2 : 1 ≤ (w - 1) / st + 1 := Nat.le_add_left 1 _
  have hexp : (if er ≠ 1 then
      dynPadConvShape nI (nI * er) (1, 1, 1) (1, 1, 1) [b, nI, d, h, w]
    else some [b, nI, d, h, w]) = some [b, nI * er, d, h, w] := by
    by_cases her : er = 1
    · rw [if_neg (by simp [her]), her, Nat.mul_one]
    · rw [if_pos her, dynPadConv_one nI (nI * er) b d h w hd hh hw]
  have hdw : dynPadConvShape (nI * er) (nI * er) (ks, ks, ks) (st, st, st)
      [b, nI * er, d, h, w] =
      some [b, nI * er, (d - 1) / st + 1, (h - 1) / st + 1, (w - 1) / st + 1] :=
    dynPadConv_eval (nI * er) (nI * er) b d h w ks ks ks st st st
      hks hks hks hst hst hst hd hh hw
  have hse : (match ser with
     | some r =>
        if 0 < r ∧ r ≤ 1 then
          (adaptiveAvgPool3dShape
              [b, nI * er, (d - 1) / st + 1, (h - 1) / st + 1, (w - 1) / st + 1]).bind
            fun sp =>
          (squeezeExpandShape (nI * er) (numSqueezedChannels nI r) sp).bind fun se =>
          broadcastShape
            [b, nI * er, (d - 1) / st + 1, (h - 1) / st + 1, (w - 1) / st + 1] se
        else some [b, nI * er, (d - 1) / st + 1, (h - 1) / st + 1, (w - 1) / st + 1]
     | none => some [b, nI * er, (d - 1) / st + 1, (h - 1) / st + 1, (w - 1) / st + 1]) =
      some [b, nI * er, (d - 1) / st + 1, (h - 1) / st + 1, (w - 1) / st + 1] := by
    rcases ser with _ | r
    · rfl
    · dsimp only
      by_cases hr : 0 < r ∧ r ≤ 1
      · rw [if_pos hr]
        have hpool : adaptiveAvgPool3dShape
            [b, nI * er, (d - 1) / st + 1, (h - 1) / st + 1, (w - 1) / st + 1] =
            some [b, nI * er, 1, 1, 1] := by
          simp [adaptiveAvgPool3dShape, hd2, hh2, hw2]
        rw [hpool, Option.some_bind]
        have hsq : squeezeExpandShape (nI * er) (numSqueezedChannels nI r)
            [b, nI * er, 1, 1, 1] = some [b, nI * er, 1, 1, 1] := by
          unfold squeezeExpandShape
          rw [dynPadConv_one (nI * er) (numSqueezedChannels nI r) b 1 1 1
              (le_refl 1) (le_refl 1) (le_refl 1), Option.some_bind,
            dynPadConv_one (numSqueezedChannels nI r) (nI * er) b 1 1 1
              (le_refl 1) (le_refl 1) (le_refl 1)]
        rw [hsq, Option.some_bind, broadcast_mask5]
      · rw [if_neg hr]
  have hproj : dynPadConvShape (nI * er) nO (1, 1, 1) (1, 1, 1)
      [b, nI * er, (d - 1) / st + 1, (h - 1) / st + 1, (w - 1) / st + 1] =
      some [b, nO, (d - 1) / st + 1, (h - 1) / st + 1, (w - 1) / st + 1] :=
    dynPadConv_one (nI * er) nO b _ _ _ hd2 hh2 hw2
  unfold mbConvShape
  simp only [hexp, Option.some_bind, hdw, hse, hproj]
  by_cases hskip : skip = true ∧ st = 1 ∧ nI = nO
  · rw [if_pos hskip]
    obtain ⟨hsk, hst1, hio⟩ := hskip
    subst hst1
    subst hio
    have hdc : dropConnectShape
        [b, nI, (d - 1) / 1 + 1, (h - 1) / 1 + 1, (w - 1) / 1 + 1] =
        some [b, nI, (d - 1) / 1 + 1, (h - 1) / 1 + 1, (w - 1) / 1 + 1] :=
      broadcast_batch5 b nI _ _ _
    rw [hdc, Option.some_bind, div_one_succ d hd, div_one_succ h hh,
      div_one_succ w hw, broadcast_self]
  · rw [if_neg hskip]

theorem effBlockSeq_eval (ser : Option ℚ) (skip : Bool) (ks er : ℕ) :
    ∀ (reps nI nF st b d h w : ℕ), 1 ≤ ks → 1 ≤ st → 1 ≤ d → 1 ≤ h → 1 ≤ w →
      effBlockSeq nI nF ks st ser skip er (reps + 1) [b, nI, d, h, w] =
        some [b, nF, (d - 1) / st + 1, (h - 1) / st + 1, (w - 1) / st + 1]
  | 0, nI, nF, st, b, d, h, w, hks, hst, hd, hh, hw => by
      show (mbConvShape nI nF ks st ser skip er [b, nI, d, h, w]).bind
        (effBlockSeq nF nF ks 1 ser skip er 0) = _
      rw [mbConv_eval nI nF ks st er b d h w ser skip hks hst hd hh hw,
        Option.some_bind]
      rfl
  | reps + 1, nI, nF, st, b, d, h, w, hks, hst, hd, hh, hw => by
      show (mbConvShape nI nF ks st ser skip er [b, nI, d, h, w]).bind
        (effBlockSeq nF nF ks 1 ser skip er (reps + 1)) = _
      rw [mbConv_eval nI nF ks st er b d h w ser skip hks hst hd hh hw,
        Option.some_bind,
        effBlockSeq_eval ser skip ks er reps nF nF 1 b
          ((d - 1) / st + 1) ((h - 1) / st + 1) ((w - 1) / st + 1)
          hks (le_refl 1) (Nat.le_add_left 1 _) (Nat.le_add_left 1 _)
          (Nat.le_add_left 1 _),
        div_one_succ ((d - 1) / st + 1) (Nat.le_add_left 1 _),
        div_one_succ ((h - 1) / st + 1) (Nat.le_add_left 1 _),
        div_one_succ ((w - 1) / st + 1) (Nat.le_add_left 1 _)]

theorem effNumRepeat_pos (dc : ℚ) (r : ℕ) (hdc : 0 ≤ dc) (hr : 1 ≤ r) :
    1 ≤ effNumRepeat dc r := by
  unfold effNumRepeat
  split
  · exact hr
  · rename_i hne
    have hpos : 0 < dc := lt_of_le_of_ne hdc (Ne.symm hne)
    have hr1 : (1 : ℚ) ≤ (r : ℚ) := by exact_mod_cast hr
    have hrq : (0 : ℚ) < dc * (r : ℚ) := mul_pos hpos (by linarith)
    have hceil : 0 < ⌈dc * (r : ℚ)⌉ := Int.ceil_pos.mpr hrq
    omega

theorem effRow_eval (wc dc : ℚ) (dd : ℕ) (row : BlockArgs) (b cIn cOut d h w : ℕ)
    (hIn : gchN row.in_channels wc dd none = some cIn)
    (hOut : gchN row.out_channels wc dd none = some cOut)
    (hrep : 1 ≤ effNumRepeat dc row.num_repeat)
    (hks : 1 ≤ row.kernel_size) (hst : 1 ≤ row.stride)
    (hd : 1 ≤ d) (hh : 1 ≤ h) (hw : 1 ≤ w) :
    effRowShape wc dc dd none row [b, cIn, d, h, w] =
      some [b, cOut, (d - 1) / row.stride + 1, (h - 1) / row.stride + 1,
        (w - 1) / row.stride + 1] := by
  unfold effRowShape
  rw [hIn, Option.some_bind, hOut, Option.some_bind]
  obtain ⟨k, hk⟩ : ∃ k, effNumRepeat dc row.num_repeat = k + 1 :=
    ⟨effNumRepeat dc row.num_repeat - 1, by omega⟩
  rw [hk]
  exact effBlockSeq_eval (some row.se_ratio) row.id_skip row.kernel_size
    row.expand_ratio k cIn cOut row.stride b d h w hks hst hd hh hw

theorem effRow_eval1 (wc dc : ℚ) (dd : ℕ) (row : BlockArgs) (b cIn cOut d h w : ℕ)
    (hIn : gchN row.in_channels wc dd none = some cIn)
    (hOut : gchN row.out_channels wc dd none = some cOut)
    (hrep : 1 ≤ effNumRepeat dc row.num_repeat)
    (hks : 1 ≤ row.kernel_size) (hst : row.stride = 1)
    (hd : 1 ≤ d) (hh : 1 ≤ h) (hw : 1 ≤ w) :
    effRowShape wc dc dd none row [b, cIn, d, h, w] = some [b, cOut, d, h, w] := by
  rw [effRow_eval wc dc dd row b cIn cOut d h w hIn hOut hrep hks
      (by rw [hst]) hd hh hw, hst,
    div_one_succ d hd, div_one_succ h hh, div_one_succ w hw]

theorem effRow_eval2 (wc dc : ℚ) (dd : ℕ) (row : BlockArgs) (b cIn cOut d h w : ℕ)
    (hIn : gchN row.in_channels wc dd none = some cIn)
    (hOut : gchN row.out_channels wc dd none = some cOut)
    (hrep : 1 ≤ effNumRepeat dc row.num_repeat)
    (hks : 1 ≤ row.kernel_size) (hst : row.stride = 2)
    (hd : 1 ≤ d) (hh : 1 ≤ h) (hw : 1 ≤ w) :
    effRowShape wc dc dd none row [b, cIn, d, h, w] =
      some [b, cOut, halveDim d, halveDim h, halveDim w] := by
  rw [effRow_eval wc dc dd row b cIn cOut d h w hIn hOut hrep hks
      (by rw [hst]; omega) hd hh hw, hst]
  rfl

/-! ### Claim C2 -/

/-- C2: the network `EfficientNet.__init__` builds is a pipeline of 3D
layers (dynamically padded `Conv3d`s, `AdaptiveAvgPool3d`, `Flatten`,
`Linear`): it accepts exactly 5-dimensional inputs (any other rank is
rejected by the first `ConstantPad3d`/`Conv3d`, witnessing that every
layer is the 3D variant), and for every 5-dimensional input
`[batch, ni, d, h, w]` with non-empty spatial dimensions the forward
output has shape `[batch, num_classes]`. -/
theorem efficientnet_3d_forward_shape (b ni nc d h w dd : ℕ) (wc dc : ℚ)
    (hwc : 0 < wc) (hdc : 0 ≤ dc) (hdd : 1 ≤ dd)
    (hd : 1 ≤ d) (hh : 1 ≤ h) (hw : 1 ≤ w) :
    efficientNetShape ni nc wc dc dd none [b, ni, d, h, w] = some [b, nc] ∧
    ∀ s : List ℕ, s.length ≠ 5 →
      efficientNetShape ni nc wc dc dd none s = none := by
  have hwc' : wc ≠ 0 := ne_of_gt hwc
  obtain ⟨c32, h32⟩ := gchN_some 32 wc dd none hwc'
  obtain ⟨c16, h16⟩ := gchN_some 16 wc dd none hwc'
  obtain ⟨c24, h24⟩ := gchN_some 24 wc dd none hwc'
  obtain ⟨c40, h40⟩ := gchN_some 40 wc dd none hwc'
  obtain ⟨c80, h80⟩ := gchN_some 80 wc dd none hwc'
  obtain ⟨c112, h112⟩ := gchN_some 112 wc dd none hwc'
  obtain ⟨c192, h192⟩ := gchN_some 192 wc dd none hwc'
  obtain ⟨c320, h320⟩ := gchN_some 320 wc dd none hwc'
  obtain ⟨cL, hL⟩ := gchN_some c320 wc dd none hwc'
  constructor
  · have hstem := dynPadConv_stem ni c32 b d h w hd hh hw
    have er1 : effRowShape wc dc dd none ⟨1, 3, 1, 1, 32, 16, 1 / 4, true⟩
        [b, c32, halveDim d, halveDim h, halveDim w] =
        some [b, c16, halveDim d, halveDim h, halveDim w] :=
      effRow_eval1 wc dc dd _ b c32 c16 _ _ _ h32 h16
        (effNumRepeat_pos dc 1 hdc (by decide)) (by decide) rfl
        (halveDim_pos d) (halveDim_pos h) (halveDim_pos w)
    have er2 : effRowShape wc dc dd none ⟨2, 3, 2, 6, 16, 24, 1 / 4, true⟩
        [b, c16, halveDim d, halveDim h, halveDim w] =
        some [b, c24, halveDim (halveDim d), halveDim (halveDim h),
          halveDim (halveDim w)] :=
      effRow_eval2 wc dc dd _ b c16 c24 _ _ _ h16 h24
        (effNumRepeat_pos dc 2 hdc (by decide)) (by decide) rfl
        (halveDim_pos d) (halveDim_pos h) (halveDim_pos w)
    have er3 : effRowShape wc dc dd none ⟨2, 4, 2, 6, 24, 40, 1 / 4, true⟩
        [b, c24, halveDim (halveDim d), halveDim (halveDim h),
          halveDim (halveDim w)] =
        some [b, c40, halveDim (halveDim (halveDim d)),
          halveDim (halveDim (halveDim h)), halveDim (halveDim (halveDim w))] :=
      effRow_eval2 wc dc dd _ b c24 c40 _ _ _ h24 h40
        (effNumRepeat_pos dc 2 hdc (by decide)) (by decide) rfl
        (halveDim_pos _) (halveDim_pos _) (halveDim_pos _)
    have er4 : effRowShape wc dc dd none ⟨3, 3, 2, 6, 40, 80, 1 / 4, true⟩
        [b, c40, halveDim (halveDim (halveDim d)),
          halveDim (halveDim (halveDim h)), halveDim (halveDim (halveDim w))] =
        some [b, c80, halveDim (halveDim (halveDim (halveDim d))),
          halveDim (halveDim (halveDim (halveDim h))),
          halveDim (halveDim (halveDim (halveDim w)))] :=
      effRow_eval2 wc dc dd _ b c40 c80 _ _ _ h40 h80
        (effNumRepeat_pos dc 3 hdc (by decide)) (by decide) rfl
        (halveDim_pos _) (halveDim_pos _) (halveDim_pos _)
    have er5 : effRowShape wc dc dd none ⟨3, 4, 1, 6, 80, 112, 1 / 4, true⟩
        [b, c80, halveDim (halveDim (halveDim (halveDim d))),
          halveDim (halveDim (halveDim (halveDim h))),
          halveDim (halveDim (halveDim (halveDim w)))] =
        some [b, c112, halveDim (halveDim (halveDim (halveDim d))),
          halveDim (halveDim (halveDim (halveDim h))),
          halveDim (halveDim (halveDim (halveDim w)))] :=
      effRow_eval1 wc dc dd _ b c80 c112 _ _ _ h80 h112
        (effNumRepeat_pos dc 3 hdc (by decide)) (by decide) rfl
        (halveDim_pos _) (halveDim_pos _) (halveDim_pos _)
    have er6 : effRowShape wc dc dd none ⟨4, 4, 2, 6, 112, 192, 1 / 4, true⟩
        [b, c112, halveDim (halveDim (halveDim (halveDim d))),
          halveDim (halveDim (halveDim (halveDim h))),
          halveDim (halveDim (halveDim (halveDim w)))] =
        some [b, c192, halveDim (halveDim (halveDim (halveDim (halveDim d)))),
          halveDim (halveDim (halveDim (halveDim (halveDim h)))),
          halveDim (halveDim (halveDim (halveDim (halveDim w))))] :=
      effRow_eval2 wc dc dd _ b c112 c192 _ _ _ h112 h192
        (effNumRepeat_pos dc 4 hdc (by decide)) (by decide) rfl
        (halveDim_pos _) (halveDim_pos _) (halveDim_pos _)
    have er7 : effRowShape wc dc dd none ⟨1, 3, 1, 6, 192, 320, 1 / 4, true⟩
        [b, c192, halveDim (halveDim (halveDim (halveDim (halveDim d)))),
          halveDim (halveDim (halveDim (halveDim (halveDim h)))),
          halveDim (halveDim (halveDim (halveDim (halveDim w))))] =
        some [b, c320, halveDim (halveDim (halveDim (halveDim (halveDim d)))),
          halveDim (halveDim (halveDim (halveDim (halveDim h)))),
          halveDim (halveDim (halveDim (halveDim (halveDim w))))] :=
      effRow_eval1 wc dc dd _ b c192 c320 _ _ _ h192 h320
        (effNumRepeat_pos dc 1 hdc (by decide)) (by decide) rfl
        (halveDim_pos _) (halveDim_pos _) (halveDim_pos _)
    have hlast : dynPadConvShape c320 cL (1, 1, 1) (1, 1, 1)
        [b, c320, halveDim (halveDim (halveDim (halveDim (halveDim d)))),
          halveDim (halveDim (halveDim (halveDim (halveDim h)))),
          halveDim (halveDim (halveDim (halveDim (halveDim w))))] =
        some [b, cL, halveDim (halveDim (halveDim (halveDim (halveDim d)))),
          halveDim (halveDim (halveDim (halveDim (halveDim h)))),
          halveDim (halveDim (halveDim (halveDim (halveDim w))))] :=
      dynPadConv_one c320 cL b _ _ _ (halveDim_pos _) (halveDim_pos _)
        (halveDim_pos _)
    have hpool : adaptiveAvgPool3dShape
        [b, cL, halveDim (halveDim (halveDim (halveDim (halveDim d)))),
          halveDim (halveDim (halveDim (halveDim (halveDim h)))),
          halveDim (halveDim (halveDim (halveDim (halveDim w))))] =
        some [b, cL, 1, 1, 1] := by
      simp [adaptiveAvgPool3dShape, halveDim_pos]
    have hfl : flattenShape [b, cL, 1, 1, 1] = some [b, cL] := by
      simp [flattenShape]
    have hlin : linearShape cL nc [b, cL] = some [b, nc] := by
      show (if ([b, cL] : List ℕ).getLast? = some cL then
          some (([b, cL] : List ℕ).dropLast ++ [nc]) else none) = some [b, nc]
      rw [if_pos (show ([b, cL] : List ℕ).getLast? = some cL from rfl)]
      rfl
    simp only [efficientNetShape, h32, Option.some_bind, hstem, blockArguments,
      effBody, er1, er2, er3, er4, er5, er6, er7, h320, hL, hlast, hpool, hfl,
      hlin]
  · intro s hs
    have hpadnone : constantPad3dShape (paddingList 3 3 3).reverse s = none := by
      have hp : (paddingList 3 3 3).reverse = [1, 1, 1, 1, 1, 1] := rfl
      rw [hp]
      rcases s with _ | ⟨a1, _ | ⟨a2, _ | ⟨a3, _ | ⟨a4, _ | ⟨a5, rest⟩⟩⟩⟩⟩
      · rfl
      · rfl
      · rfl
      · rfl
      · rfl
      · rcases rest with _ | ⟨a6, rest2⟩
        · exact absurd rfl hs
        · rfl
    have hstemnone : dynPadConvShape ni c32 (3, 3, 3) (2, 2, 2) s = none := by
      unfold dynPadConvShape
      rw [hpadnone]
      rfl
    simp only [efficientNetShape, h32, Option.some_bind, hstemnone,
      Option.none_bind]

/-- Witness for C2 at the default coefficients of `efficientnet_b0`. -/
theorem efficientnet_3d_forward_shape_witness :
    efficientNetShape 3 2 1 1 8 none [1, 3, 2, 2, 2] = some [1, 2] :=
  (efficientnet_3d_forward_shape 1 3 2 2 2 2 8 1 1 (by norm_num) (by norm_num)
    (by norm_num) (by norm_num) (by norm_num) (by norm_num)).1

/-! ### Claim C10 -/

/-- C10: for positive `n_channels`, positive `width_coefficient`, positive
`depth_divisor` and `min_depth = None`, `EfficientNet.get_n_channels`
returns a positive integer that is a multiple of `depth_divisor`, at least
`depth_divisor`, and at least `0.9 * width_coefficient * n_channels` (the
rounding correction guarantees the lower bound). -/
theorem get_n_channels_bounds (n dd : ℕ) (wc : ℚ)
    (hn : 0 < n) (hwc : 0 < wc) (hdd : 0 < dd) :
    ∃ k : ℤ, get_n_channels n wc dd none = some k ∧ 0 < k ∧
      ((dd : ℕ) : ℤ) ∣ k ∧ ((dd : ℕ) : ℤ) ≤ k ∧
      (9 / 10 : ℚ) * (wc * (n : ℚ)) ≤ (k : ℚ) := by
  have hwc' : wc ≠ 0 := ne_of_gt hwc
  set t : ℚ := (n : ℚ) * wc with ht
  have htpos : 0 < t := by
    rw [ht]
    exact mul_pos (by exact_mod_cast hn) hwc
  have hhalf : (0 : ℚ) ≤ (dd : ℚ) / 2 := by positivity
  set z : ℤ := pyInt (t + (dd : ℚ) / 2) with hzdef
  set base : ℤ := Int.fdiv z ((dd : ℕ) : ℤ) * ((dd : ℕ) : ℤ) with hbasedef
  set m : ℤ := max ((dd : ℕ) : ℤ) base with hmdef
  have hval : get_n_channels n wc dd none =
      some (if (m : ℚ) < 9 / 10 * t then m + ((dd : ℕ) : ℤ) else m) := by
    unfold get_n_channels
    rw [if_neg hwc']
  have hzfloor : z = ⌊t + (dd : ℚ) / 2⌋ := by
    rw [hzdef]
    unfold pyInt
    rw [if_pos (by linarith)]
  have hddZ : (0 : ℤ) < ((dd : ℕ) : ℤ) := by exact_mod_cast hdd
  have hdvd_base : ((dd : ℕ) : ℤ) ∣ base := by
    rw [hbasedef]
    exact dvd_mul_left _ _
  have hdvd_m : ((dd : ℕ) : ℤ) ∣ m := by
    rcases max_choice ((dd : ℕ) : ℤ) base with hc | hc
    · rw [hmdef, hc]
    · rw [hmdef, hc]
      exact hdvd_base
  have hm_ge : ((dd : ℕ) : ℤ) ≤ m := le_max_left _ _
  have hm_pos : (0 : ℤ) < m := lt_of_lt_of_le hddZ hm_ge
  have hfd : Int.fdiv z ((dd : ℕ) : ℤ) = z / ((dd : ℕ) : ℤ) :=
    Int.fdiv_eq_ediv z (le_of_lt hddZ)
  have hbase_gt : z - ((dd : ℕ) : ℤ) < base := by
    rw [hbasedef, hfd]
    have heq := Int.ediv_add_emod z ((dd : ℕ) : ℤ)
    have hmod_lt : z % ((dd : ℕ) : ℤ) < ((dd : ℕ) : ℤ) :=
      Int.emod_lt_of_pos z hddZ
    have h1 : ((dd : ℕ) : ℤ) * (z / ((dd : ℕ) : ℤ)) =
        z - z % ((dd : ℕ) : ℤ) := by linarith [heq]
    calc z - ((dd : ℕ) : ℤ) < z - z % ((dd : ℕ) : ℤ) := by linarith
    _ = ((dd : ℕ) : ℤ) * (z / ((dd : ℕ) : ℤ)) := h1.symm
    _ = z / ((dd : ℕ) : ℤ) * ((dd : ℕ) : ℤ) := mul_comm _ _
  have htw : (9 : ℚ) / 10 * (wc * (n : ℚ)) = 9 / 10 * t := by
    rw [ht]; ring
  by_cases hcond : (m : ℚ) < 9 / 10 * t
  · rw [if_pos hcond] at hval
    refine ⟨m + ((dd : ℕ) : ℤ), hval, by omega, dvd_add hdvd_m (dvd_refl _),
      by omega, ?_⟩
    have hzq : t + (dd : ℚ) / 2 - 1 < (z : ℚ) := by
      rw [hzfloor]
      exact Int.sub_one_lt_floor _
    have hbZ : z - ((dd : ℕ) : ℤ) + 1 ≤ base := by omega
    have hbq : ((z - ((dd : ℕ) : ℤ) + 1 : ℤ) : ℚ) ≤ ((base : ℤ) : ℚ) := by
      exact_mod_cast hbZ
    have hmq : ((base : ℤ) : ℚ) ≤ ((m : ℤ) : ℚ) := by
      exact_mod_cast le_max_right ((dd : ℕ) : ℤ) base
    rw [htw]
    push_cast at hbq hmq ⊢
    linarith
  · rw [if_neg hcond] at hval
    push_neg at hcond
    refine ⟨m, hval, hm_pos, hdvd_m, hm_ge, ?_⟩
    rw [htw]
    exact hcond

/-- Witness for C10 at the stem configuration `n = 32`, `wc = 1`, `dd = 8`. -/
theorem get_n_channels_bounds_witness :
    ∃ k : ℤ, get_n_channels 32 1 8 none = some k ∧ 0 < k ∧
      ((8 : ℕ) : ℤ) ∣ k ∧ ((8 : ℕ) : ℤ) ≤ k ∧
      (9 / 10 : ℚ) * (1 * ((32 : ℕ) : ℚ)) ≤ (k : ℚ) :=
  get_n_channels_bounds 32 8 1 (by norm_num) (by norm_num) (by norm_num)

/-! ### Claim C1 -/

theorem sumShapes_replicate (s : List ℕ) :
    ∀ k, sumShapes (List.replicate (k + 1) s) = some s
  | 0 => rfl
  | k + 1 => by
      rw [List.replicate_succ, List.replicate_succ]
      show (sumShapes (s :: List.replicate k s)).bind
        (fun t => broadcastShape s t) = some s
      rw [← List.replicate_succ, sumShapes_replicate s k, Option.some_bind,
        broadcast_self]

theorem deepLabDecoder_eval (ni lowNi nOut k b ds hs ws dx hx wx : ℕ)
    (hds : 1 ≤ ds) (hhs : 1 ≤ hs) (hws : 1 ≤ ws)
    (hdx : 1 ≤ dx) (hhx : 1 ≤ hx) (hwx : 1 ≤ wx) :
    deepLabDecoderShape ni lowNi nOut
      (List.replicate (k + 1) [b, lowNi, ds, hs, ws]) [b, ni, dx, hx, wx] =
      some [b, nOut, ds, hs, ws] := by
  have hsum := sumShapes_replicate [b, lowNi, ds, hs, ws] k
  have hconv1 := conv1x1_eval lowNi (lowNi / 2) b ds hs ws hds hhs hws
  have hd1 : ([b, lowNi / 2, ds, hs, ws] : List ℕ).drop
      (([b, lowNi / 2, ds, hs, ws] : List ℕ).length - 3) = [ds, hs, ws] := rfl
  have hd2 : ([b, ni, dx, hx, wx] : List ℕ).drop
      (([b, ni, dx, hx, wx] : List ℕ).length - 3) = [dx, hx, wx] := rfl
  have hif : (if ([ds, hs, ws] : List ℕ) ≠ [dx, hx, wx] then
      interpolateShape [ds, hs, ws] [b, ni, dx, hx, wx]
    else some [b, ni, dx, hx, wx]) = some [b, ni, ds, hs, ws] := by
    by_cases hxs : ([ds, hs, ws] : List ℕ) = [dx, hx, wx]
    · rw [if_neg (not_not_intro hxs)]
      have hcomp : ds = dx ∧ hs = hx ∧ ws = wx := by simpa using hxs
      obtain ⟨e1, e2, e3⟩ := hcomp
      rw [e1, e2, e3]
    · rw [if_pos hxs]
      simp [interpolateShape, hds, hhs, hws, hdx, hhx, hwx]
  have hcat : catDim1 [[b, ni, ds, hs, ws], [b, lowNi / 2, ds, hs, ws]] =
      some [b, ni + lowNi / 2, ds, hs, ws] := by
    simp [catDim1, catDim1Aux]
  have hc1 := conv3x3p1_eval (ni + lowNi / 2) ni b ds hs ws hds hhs hws
  have hc2 := conv3x3p1_eval ni ni b ds hs ws hds hhs hws
  have hc3 := conv1x1_eval ni nOut b ds hs ws hds hhs hws
  simp only [deepLabDecoderShape, hsum, Option.some_bind, hconv1, hd1, hd2,
    hif, hcat, hc1, hc2, hc3]

/-- C1 (amended): for every encoder accepted by `DynamicDeepLab.__init__`
— one whose dummy forward succeeds on the 5-dimensional dummy input and
whose recorded size list has at least two feature-size-change indices —
the constructor registers its forward hook on the encoder layer at the
second size-change index found by dummy-forward shape inspection (and
reads the low-level channel count from that layer's recorded size), and
`DeepLabDecoder.forward` consumes the hook-stored low-level features by
summing them, halving their channel count with a 1x1 convolution, resizing
the ASPP output to their spatial size whenever the two spatial sizes
differ, and concatenating the two along the channel dimension before the
final convolutions — so its output carries `n_out` channels at the
low-level features' spatial size. -/
theorem dynamic_deeplab_spliced (enc : List Stage) (n_out inCh dI hI wI : ℕ)
    (cfg : DeepLabConfig)
    (hinit : dynamicDeepLabInit enc n_out inCh dI hI wI = some cfg) :
    (∃ sizes, modelSizes (enc.map stageForward) [1, inCh, dI, hI, wI] =
        some sizes ∧
      (szChangeIdxs sizes).get? 1 = some cfg.hookIdx ∧
      ∃ hooked, sizes.get? cfg.hookIdx = some hooked ∧
        hooked.get? 1 = some cfg.lowLvlNi) ∧
    (∀ ni lowNi nOut2 k b ds hs ws dx hx wx : ℕ, 1 ≤ ds → 1 ≤ hs → 1 ≤ ws →
      1 ≤ dx → 1 ≤ hx → 1 ≤ wx →
      deepLabDecoderShape ni lowNi nOut2
        (List.replicate (k + 1) [b, lowNi, ds, hs, ws]) [b, ni, dx, hx, wx] =
        some [b, nOut2, ds, hs, ws]) := by
  constructor
  · unfold dynamicDeepLabInit at hinit
    simp only [Option.bind_eq_some] at hinit
    obtain ⟨sizes, hsizes, hookIdx, hhook, stage, hstage, stageIn, hstageIn,
      stored, hstored, xEnc, hxEnc, ni, hni, x1, hx1, lowSz, hlowSz, lowNi,
      hlowNi, out, hout, hcfg⟩ := hinit
    rw [Option.some.injEq] at hcfg
    subst hcfg
    exact ⟨sizes, hsizes, hhook, lowSz, hlowSz, hlowNi⟩
  · intro ni lowNi nOut2 k b ds hs ws dx hx wx hds hhs hws hdx hhx hwx
    exact deepLabDecoder_eval ni lowNi nOut2 k b ds hs ws dx hx wx
      hds hhs hws hdx hhx hwx

/-- Witness for C1 on the concrete 3D encoder `enc3` with image size
`(8, 16, 16)`. -/
theorem dynamic_deeplab_spliced_witness :
    (∃ sizes, modelSizes (enc3.map stageForward) [1, 3, 8, 16, 16] =
        some sizes ∧
      (szChangeIdxs sizes).get? 1 = some cfgW.hookIdx ∧
      ∃ hooked, sizes.get? cfgW.hookIdx = some hooked ∧
        hooked.get? 1 = some cfgW.lowLvlNi) ∧
    deepLabDecoderShape 16 32 2 (List.replicate (0 + 1) [1, 32, 2, 4, 4])
      [1, 16, 1, 2, 2] = some [1, 2, 2, 4, 4] :=
  ⟨(dynamic_deeplab_spliced enc3 2 3 8 16 16 cfgW (by decide)).1,
   (dynamic_deeplab_spliced enc3 2 3 8 16 16 cfgW (by decide)).2 16 32 2 0 1
     2 4 4 1 2 2 (by decide) (by decide) (by decide) (by decide) (by decide)
     (by decide)⟩

/-- C1 counterexample: a pretrained 2D encoder — a single stage whose
child is the 7x7 stride-2 `nn.Conv2d` stem of a standard 2D ResNet — is
not spliced: the 2D convolution rejects the 5-dimensional dummy input, so
`DynamicDeepLab.__init__` fails rather than working for arbitrary
pretrained 2D encoders. -/
theorem dynamic_deeplab_rejects_2d_encoder :
    dynamicDeepLabInit enc2d 2 3 20 64 64 = none := by decide
